import Mathlib

set_option maxRecDepth 10000

/-!
A verification development for `cargo-protologic` (`src/main.rs`), a cargo
subcommand that builds "fleet" packages to WebAssembly, optimizes the
binaries with wasm-opt, and runs battles between two built fleets in an
external simulator.

The embedding models:
* `OsStr` contents as lists of byte values (`List Nat`), with UTF-8
  encoding/decoding standing in for `str`/`OsStr` conversions (the tool runs
  on unix-style paths where `OsStr::to_str` is UTF-8 validation);
* paths as lists of components (`List (List Nat)`), which is what
  `Path::components` yields for the relative paths the tool manipulates;
  `file_name`, `file_stem`, `extension` and `with_extension` follow the
  byte-level algorithms of Rust's `std::path` (`split_file_at_dot`, the
  `set_extension` buffer truncation);
* external processes (cargo, wasm-opt, the simulator, the viewer) as
  oracles passed in as function arguments; the value returned by a modelled
  command records exactly which invocations it performs.
-/

/-- UTF-8 encoding of one unicode scalar value as a list of byte values. -/
def utf8EncodeChar (c : Char) : List Nat :=
  if c.toNat < 128 then [c.toNat]
  else if c.toNat < 2048 then [192 + c.toNat / 64, 128 + c.toNat % 64]
  else if c.toNat < 65536 then
    [224 + c.toNat / 4096, 128 + c.toNat / 64 % 64, 128 + c.toNat % 64]
  else
    [240 + c.toNat / 262144, 128 + c.toNat / 4096 % 64, 128 + c.toNat / 64 % 64,
      128 + c.toNat % 64]

/-- UTF-8 encoding of a list of characters. -/
def utf8EncodeList : List Char → List Nat
  | [] => []
  | c :: cs => utf8EncodeChar c ++ utf8EncodeList cs

/-- UTF-8 encoding of a string: the byte content an `OsStr` holds for it. -/
def utf8Encode (s : String) : List Nat := utf8EncodeList s.data

/-- Strict UTF-8 decoding of one leading scalar value, returning the decoded
character and the remaining bytes. Rejects stray continuation bytes, overlong
forms, surrogates and out-of-range scalar values. -/
def utf8DecodeChar? : List Nat → Option (Char × List Nat)
  | [] => none
  | b0 :: r =>
    if b0 < 128 then some (Char.ofNat b0, r)
    else if b0 < 192 then none
    else if b0 < 224 then
      match r with
      | [] => none
      | b1 :: r1 =>
        if 128 ≤ b1 ∧ b1 < 192 ∧ 128 ≤ (b0 - 192) * 64 + (b1 - 128) then
          some (Char.ofNat ((b0 - 192) * 64 + (b1 - 128)), r1)
        else none
    else if b0 < 240 then
      match r with
      | b1 :: b2 :: r2 =>
        if 128 ≤ b1 ∧ b1 < 192 ∧ 128 ≤ b2 ∧ b2 < 192 ∧
            2048 ≤ (b0 - 224) * 4096 + (b1 - 128) * 64 + (b2 - 128) ∧
            ((b0 - 224) * 4096 + (b1 - 128) * 64 + (b2 - 128) < 55296 ∨
              57344 ≤ (b0 - 224) * 4096 + (b1 - 128) * 64 + (b2 - 128)) then
          some (Char.ofNat ((b0 - 224) * 4096 + (b1 - 128) * 64 + (b2 - 128)), r2)
        else none
      | _ => none
    else if b0 < 248 then
      match r with
      | b1 :: b2 :: b3 :: r3 =>
        if 128 ≤ b1 ∧ b1 < 192 ∧ 128 ≤ b2 ∧ b2 < 192 ∧ 128 ≤ b3 ∧ b3 < 192 ∧
            65536 ≤ (b0 - 240) * 262144 + (b1 - 128) * 4096 + (b2 - 128) * 64 + (b3 - 128) ∧
            (b0 - 240) * 262144 + (b1 - 128) * 4096 + (b2 - 128) * 64 + (b3 - 128) <
              1114112 then
          some (Char.ofNat
            ((b0 - 240) * 262144 + (b1 - 128) * 4096 + (b2 - 128) * 64 + (b3 - 128)), r3)
        else none
      | _ => none
    else none

/-- Fuel-indexed decoding loop; `utf8Decode` supplies the list length as fuel,
which always suffices since every step consumes at least one byte. -/
def utf8DecodeAux : Nat → List Nat → Option (List Char)
  | _, [] => some []
  | 0, _ :: _ => none
  | fuel + 1, b :: r =>
    (utf8DecodeChar? (b :: r)).bind
      (fun p => (utf8DecodeAux fuel p.2).map (fun cs => p.1 :: cs))

/-- Strict UTF-8 decoding of a byte list; models `OsStr::to_str`, which
succeeds exactly when the bytes are valid UTF-8. -/
def utf8Decode (l : List Nat) : Option (List Char) := utf8DecodeAux l.length l

theorem utf8DecodeChar?_length (l : List Nat) (c : Char) (rest : List Nat)
    (h : utf8DecodeChar? l = some (c, rest)) : rest.length < l.length := by
  rcases l with _ | ⟨b0, _ | ⟨b1, _ | ⟨b2, _ | ⟨b3, r⟩⟩⟩⟩
  · exact absurd h (by simp [utf8DecodeChar?])
  · simp only [utf8DecodeChar?] at h
    split at h
    · rw [Option.some.injEq, Prod.mk.injEq] at h
      obtain ⟨-, h2⟩ := h
      subst h2
      simp only [List.length_cons, List.length_nil]
      omega
    · split at h
      · exact Option.noConfusion h
      · split at h
        · exact Option.noConfusion h
        · split at h
          · exact Option.noConfusion h
          · split at h
            · exact Option.noConfusion h
            · exact Option.noConfusion h
  · simp only [utf8DecodeChar?] at h
    split at h
    · rw [Option.some.injEq, Prod.mk.injEq] at h
      obtain ⟨-, h2⟩ := h
      subst h2
      simp only [List.length_cons, List.length_nil]
      omega
    · split at h
      · exact Option.noConfusion h
      · split at h
        · split at h
          · rw [Option.some.injEq, Prod.mk.injEq] at h
            obtain ⟨-, h2⟩ := h
            subst h2
            simp only [List.length_cons, List.length_nil]
            omega
          · exact Option.noConfusion h
        · split at h
          · exact Option.noConfusion h
          · split at h
            · exact Option.noConfusion h
            · exact Option.noConfusion h
  · simp only [utf8DecodeChar?] at h
    split at h
    · rw [Option.some.injEq, Prod.mk.injEq] at h
      obtain ⟨-, h2⟩ := h
      subst h2
      simp only [List.length_cons, List.length_nil]
      omega
    · split at h
      · exact Option.noConfusion h
      · split at h
        · split at h
          · rw [Option.some.injEq, Prod.mk.injEq] at h
            obtain ⟨-, h2⟩ := h
            subst h2
            simp only [List.length_cons, List.length_nil]
            omega
          · exact Option.noConfusion h
        · split at h
          · split at h
            · rw [Option.some.injEq, Prod.mk.injEq] at h
              obtain ⟨-, h2⟩ := h
              subst h2
              simp only [List.length_cons, List.length_nil]
              omega
            · exact Option.noConfusion h
          · split at h
            · exact Option.noConfusion h
            · exact Option.noConfusion h
  · simp only [utf8DecodeChar?] at h
    split at h
    · rw [Option.some.injEq, Prod.mk.injEq] at h
      obtain ⟨-, h2⟩ := h
      subst h2
      simp only [List.length_cons, List.length_nil]
      omega
    · split at h
      · exact Option.noConfusion h
      · split at h
        · split at h
          · rw [Option.some.injEq, Prod.mk.injEq] at h
            obtain ⟨-, h2⟩ := h
            subst h2
            simp only [List.length_cons, List.length_nil]
            omega
          · exact Option.noConfusion h
        · split at h
          · split at h
            · rw [Option.some.injEq, Prod.mk.injEq] at h
              obtain ⟨-, h2⟩ := h
              subst h2
              simp only [List.length_cons, List.length_nil]
              omega
            · exact Option.noConfusion h
          · split at h
            · split at h
              · rw [Option.some.injEq, Prod.mk.injEq] at h
                obtain ⟨-, h2⟩ := h
                subst h2
                simp only [List.length_cons, List.length_nil]
                omega
              · exact Option.noConfusion h
            · exact Option.noConfusion h

theorem utf8DecodeAux_fuel (fuel1 : Nat) : ∀ (fuel2 : Nat) (l : List Nat),
    l.length ≤ fuel1 → l.length ≤ fuel2 →
    utf8DecodeAux fuel1 l = utf8DecodeAux fuel2 l := by
  induction fuel1 with
  | zero =>
    intro fuel2 l h1 _
    have : l = [] := by
      cases l with
      | nil => rfl
      | cons b r => simp at h1
    subst this
    cases fuel2 <;> rfl
  | succ f1 ih =>
    intro fuel2 l h1 h2
    cases l with
    | nil => cases fuel2 <;> rfl
    | cons b r =>
      cases fuel2 with
      | zero => simp at h2
      | succ f2 =>
        rw [utf8DecodeAux, utf8DecodeAux]
        cases hc : utf8DecodeChar? (b :: r) with
        | none => rfl
        | some p =>
          obtain ⟨c, rest⟩ := p
          have hlen := utf8DecodeChar?_length (b :: r) c rest hc
          simp only [List.length_cons] at h1 h2 hlen
          have hr := ih f2 rest (by omega) (by omega)
          simp only [Option.some_bind, hr]

theorem utf8Decode_step (l rest : List Nat) (c : Char)
    (h : utf8DecodeChar? l = some (c, rest)) :
    utf8Decode l = (utf8Decode rest).map (fun cs => c :: cs) := by
  have hlen := utf8DecodeChar?_length l c rest h
  cases l with
  | nil => simp [utf8DecodeChar?] at h
  | cons b r =>
    show utf8DecodeAux (b :: r).length (b :: r) = _
    rw [List.length_cons, utf8DecodeAux, h]
    simp only [List.length_cons] at hlen
    have hf : utf8DecodeAux r.length rest = utf8DecodeAux rest.length rest :=
      utf8DecodeAux_fuel r.length rest.length rest (by omega) (Nat.le_refl _)
    simp only [Option.some_bind, hf]
    rfl

theorem utf8Decode_nil : utf8Decode [] = some [] := rfl

theorem char_valid_ranges (c : Char) :
    c.toNat < 55296 ∨ (57344 ≤ c.toNat ∧ c.toNat < 1114112) := by
  have h := c.valid
  simp only [UInt32.isValidChar, Nat.isValidChar, Char.toNat] at h ⊢
  exact h

theorem utf8DecodeChar?_one (n : Nat) (h : n < 128) (l : List Nat) :
    utf8DecodeChar? (n :: l) = some (Char.ofNat n, l) := by
  simp only [utf8DecodeChar?]
  rw [if_pos h]

theorem utf8DecodeChar?_two (n : Nat) (h1 : 128 ≤ n) (h2 : n < 2048) (l : List Nat) :
    utf8DecodeChar? ((192 + n / 64) :: (128 + n % 64) :: l) = some (Char.ofNat n, l) := by
  simp only [utf8DecodeChar?]
  rw [if_neg (by omega : ¬192 + n / 64 < 128), if_neg (by omega : ¬192 + n / 64 < 192),
    if_pos (by omega : 192 + n / 64 < 224)]
  rw [if_pos (by omega : 128 ≤ 128 + n % 64 ∧ 128 + n % 64 < 192 ∧
      128 ≤ (192 + n / 64 - 192) * 64 + (128 + n % 64 - 128))]
  rw [(by omega : (192 + n / 64 - 192) * 64 + (128 + n % 64 - 128) = n)]

theorem utf8DecodeChar?_three (n : Nat) (h1 : 2048 ≤ n) (h2 : n < 65536)
    (h3 : n < 55296 ∨ 57344 ≤ n) (l : List Nat) :
    utf8DecodeChar? ((224 + n / 4096) :: (128 + n / 64 % 64) :: (128 + n % 64) :: l) =
      some (Char.ofNat n, l) := by
  simp only [utf8DecodeChar?]
  rw [if_neg (by omega : ¬224 + n / 4096 < 128), if_neg (by omega : ¬224 + n / 4096 < 192),
    if_neg (by omega : ¬224 + n / 4096 < 224), if_pos (by omega : 224 + n / 4096 < 240)]
  rw [if_pos (by omega : 128 ≤ 128 + n / 64 % 64 ∧ 128 + n / 64 % 64 < 192 ∧
      128 ≤ 128 + n % 64 ∧ 128 + n % 64 < 192 ∧
      2048 ≤ (224 + n / 4096 - 224) * 4096 + (128 + n / 64 % 64 - 128) * 64 +
        (128 + n % 64 - 128) ∧
      ((224 + n / 4096 - 224) * 4096 + (128 + n / 64 % 64 - 128) * 64 +
          (128 + n % 64 - 128) < 55296 ∨
        57344 ≤ (224 + n / 4096 - 224) * 4096 + (128 + n / 64 % 64 - 128) * 64 +
          (128 + n % 64 - 128)))]
  rw [(by omega :
    (224 + n / 4096 - 224) * 4096 + (128 + n / 64 % 64 - 128) * 64 + (128 + n % 64 - 128) = n)]

theorem utf8DecodeChar?_four (n : Nat) (h1 : 65536 ≤ n) (h2 : n < 1114112) (l : List Nat) :
    utf8DecodeChar? ((240 + n / 262144) :: (128 + n / 4096 % 64) :: (128 + n / 64 % 64) ::
      (128 + n % 64) :: l) = some (Char.ofNat n, l) := by
  simp only [utf8DecodeChar?]
  rw [if_neg (by omega : ¬240 + n / 262144 < 128),
    if_neg (by omega : ¬240 + n / 262144 < 192),
    if_neg (by omega : ¬240 + n / 262144 < 224),
    if_neg (by omega : ¬240 + n / 262144 < 240),
    if_pos (by omega : 240 + n / 262144 < 248)]
  rw [if_pos (by omega : 128 ≤ 128 + n / 4096 % 64 ∧ 128 + n / 4096 % 64 < 192 ∧
      128 ≤ 128 + n / 64 % 64 ∧ 128 + n / 64 % 64 < 192 ∧
      128 ≤ 128 + n % 64 ∧ 128 + n % 64 < 192 ∧
      65536 ≤ (240 + n / 262144 - 240) * 262144 + (128 + n / 4096 % 64 - 128) * 4096 +
        (128 + n / 64 % 64 - 128) * 64 + (128 + n % 64 - 128) ∧
      (240 + n / 262144 - 240) * 262144 + (128 + n / 4096 % 64 - 128) * 4096 +
        (128 + n / 64 % 64 - 128) * 64 + (128 + n % 64 - 128) < 1114112)]
  rw [(by omega :
    (240 + n / 262144 - 240) * 262144 + (128 + n / 4096 % 64 - 128) * 4096 +
      (128 + n / 64 % 64 - 128) * 64 + (128 + n % 64 - 128) = n)]

theorem utf8DecodeChar?_encodeChar (c : Char) (l : List Nat) :
    utf8DecodeChar? (utf8EncodeChar c ++ l) = some (c, l) := by
  have hv := char_valid_ranges c
  by_cases hc1 : c.toNat < 128
  · rw [utf8EncodeChar, if_pos hc1, List.cons_append, List.nil_append,
      utf8DecodeChar?_one _ hc1, Char.ofNat_toNat]
  · by_cases hc2 : c.toNat < 2048
    · rw [utf8EncodeChar, if_neg hc1, if_pos hc2, List.cons_append, List.cons_append,
        List.nil_append, utf8DecodeChar?_two _ (by omega) hc2, Char.ofNat_toNat]
    · by_cases hc3 : c.toNat < 65536
      · rw [utf8EncodeChar, if_neg hc1, if_neg hc2, if_pos hc3, List.cons_append,
          List.cons_append, List.cons_append, List.nil_append,
          utf8DecodeChar?_three _ (by omega) hc3 (by omega), Char.ofNat_toNat]
      · rw [utf8EncodeChar, if_neg hc1, if_neg hc2, if_neg hc3, List.cons_append,
          List.cons_append, List.cons_append, List.cons_append, List.nil_append,
          utf8DecodeChar?_four _ (by omega) (by omega), Char.ofNat_toNat]

theorem utf8Decode_encodeChar (c : Char) (l : List Nat) :
    utf8Decode (utf8EncodeChar c ++ l) = (utf8Decode l).map (fun cs => c :: cs) :=
  utf8Decode_step _ _ _ (utf8DecodeChar?_encodeChar c l)

theorem utf8Decode_encodeList_append (cs : List Char) (l : List Nat) :
    utf8Decode (utf8EncodeList cs ++ l) = (utf8Decode l).map (fun tl => cs ++ tl) := by
  induction cs with
  | nil =>
    rw [utf8EncodeList, List.nil_append]
    cases utf8Decode l <;> rfl
  | cons c cs ih =>
    rw [utf8EncodeList, List.append_assoc, utf8Decode_encodeChar, ih]
    cases utf8Decode l <;> rfl

theorem utf8Decode_encodeList (cs : List Char) :
    utf8Decode (utf8EncodeList cs) = some cs := by
  have h := utf8Decode_encodeList_append cs []
  rw [List.append_nil] at h
  rw [h, utf8Decode_nil]
  simp

theorem utf8Decode_encode (s : String) : utf8Decode (utf8Encode s) = some s.data :=
  utf8Decode_encodeList s.data

deriving instance DecidableEq for Except

/-- Locates the last `.` (byte 46) in a file name, returning the pieces
before and after that dot when it exists; the byte-level core of Rust's
`split_file_at_dot`. -/
def splitLastDot : List Nat → Option (List Nat × List Nat)
  | [] => none
  | b :: bs =>
    (splitLastDot bs).elim (if b = 46 then some ([], bs) else none)
      (fun p => some (b :: p.1, p.2))

/-- Models Rust's `split_file_at_dot`: `..` is special-cased to have no
extension, a file name whose only dot is a leading dot has no extension,
otherwise the name splits at its last dot. Returns `(before, after)`. -/
def split_file_at_dot (file : List Nat) : Option (List Nat) × Option (List Nat) :=
  if file = [46, 46] then (some file, none)
  else
    match splitLastDot file with
    | none => (none, some file)
    | some (pre, post) => if pre = [] then (some file, none) else (some pre, some post)

/-- Rust `Path::file_stem` applied to a file name: `before.or(after)`. -/
def file_stem (file : List Nat) : Option (List Nat) :=
  match split_file_at_dot file with
  | (some pre, _) => some pre
  | (none, after) => after

/-- Rust `Path::extension` applied to a file name: `before.and(after)`. -/
def extension (file : List Nat) : Option (List Nat) :=
  match split_file_at_dot file with
  | (some _, after) => after
  | (none, _) => none

/-- Rust `Path::file_name` for a relative path given as its components:
`.` components are skipped by component parsing, and a path whose final
component is `..` has no file name. -/
def file_name (comps : List (List Nat)) : Option (List Nat) :=
  match (comps.filter (fun c => c ≠ [46])).getLast? with
  | none => none
  | some last => if last = [46, 46] then none else some last

/-- Drops trailing `.` components of a path; models the effect of the
byte-buffer truncation done by Rust's `PathBuf::set_extension`, which cuts
the path right after the file stem of its file name. -/
def dropTrailingCurDir (comps : List (List Nat)) : List (List Nat) :=
  (comps.reverse.dropWhile (fun c => c = [46])).reverse

/-- Rust `Path::with_extension`: replaces the extension of the file name.
With an empty new extension the file name is truncated to its stem; a
non-empty extension `e` replaces it with `stem ++ "." ++ e`. A path without
a file stem is returned unchanged. -/
def with_extension (comps : List (List Nat)) (ext : List Nat) : List (List Nat) :=
  match (file_name comps).bind file_stem with
  | none => comps
  | some stem =>
    (dropTrailingCurDir comps).dropLast ++ [if ext = [] then stem else stem ++ 46 :: ext]

/-- Error cases of `extract_fleet_name`, mirroring its two `context`
messages ("fleet name wouldn't be found in fleet path. Try again?" and
"you need to name your fleet valid unicode!"). -/
inductive NameError where
  | missingFileName
  | nonUnicodeName
  deriving DecidableEq

/-- Models `extract_fleet_name` from the source: drop the extension via
`with_extension("")`, then take the resulting path's `file_name`, convert it
to unicode text and return it as the fleet name. -/
def extract_fleet_name (fleet_path : List (List Nat)) : Except NameError String :=
  match file_name (with_extension fleet_path []) with
  | none => Except.error NameError.missingFileName
  | some name =>
    match utf8Decode name with
    | none => Except.error NameError.nonUnicodeName
    | some cs => Except.ok (String.mk cs)

/-- Sanity check mirroring the repository's own unit test
`extract_fleet_name_is_sane`. -/
theorem extract_fleet_name_matches_repo_test :
    extract_fleet_name [utf8Encode "fleet_demo_fleet_foo_bar.wasm"] =
        Except.ok "fleet_demo_fleet_foo_bar" ∧
      extract_fleet_name [utf8Encode "demo_fleet_foo_bar"] =
        Except.ok "demo_fleet_foo_bar" := by
  constructor <;> rfl

theorem utf8EncodeList_append (a b : List Char) :
    utf8EncodeList (a ++ b) = utf8EncodeList a ++ utf8EncodeList b := by
  induction a with
  | nil => rfl
  | cons c cs ih =>
    rw [List.cons_append, utf8EncodeList, ih, utf8EncodeList, List.append_assoc]

theorem utf8Encode_append (s t : String) :
    utf8Encode (s ++ t) = utf8Encode s ++ utf8Encode t := by
  unfold utf8Encode
  rw [String.data_append, utf8EncodeList_append]

theorem utf8EncodeChar_ne_nil (c : Char) : utf8EncodeChar c ≠ [] := by
  unfold utf8EncodeChar
  split
  · simp
  · split
    · simp
    · split
      · simp
      · simp

theorem utf8EncodeList_eq_nil (cs : List Char) (h : utf8EncodeList cs = []) : cs = [] := by
  cases cs with
  | nil => rfl
  | cons c cs =>
    rw [utf8EncodeList] at h
    exact absurd (List.append_eq_nil.mp h).1 (utf8EncodeChar_ne_nil c)

theorem string_eq_of_encode_eq (s : String) (l : List Nat) (cs : List Char)
    (h : utf8Encode s = l) (hd : utf8Decode l = some cs) : s = String.mk cs := by
  subst h
  rw [utf8Decode_encode] at hd
  injection hd with hd
  cases s with
  | mk data => exact congrArg String.mk hd

theorem utf8Encode_ne_special (s : String) :
    (s ≠ "" → utf8Encode s ≠ []) ∧ (s ≠ "." → utf8Encode s ≠ [46]) ∧
      (s ≠ ".." → utf8Encode s ≠ [46, 46]) := by
  refine ⟨fun h he => h ?_, fun h he => h ?_, fun h he => h ?_⟩
  · exact string_eq_of_encode_eq s [] [] he (by decide)
  · exact string_eq_of_encode_eq s [46] ['.'] he (by decide)
  · exact string_eq_of_encode_eq s [46, 46] ['.', '.'] he (by decide)

theorem dot_not_mem_encodeChar (c : Char) (h : c ≠ '.') : 46 ∉ utf8EncodeChar c := by
  intro hm
  unfold utf8EncodeChar at hm
  by_cases h1 : c.toNat < 128
  · rw [if_pos h1] at hm
    simp only [List.mem_singleton] at hm
    exact h (by rw [← Char.ofNat_toNat c, ← hm])
  · by_cases h2 : c.toNat < 2048
    · rw [if_neg h1, if_pos h2] at hm
      simp only [List.mem_cons, List.not_mem_nil, or_false] at hm
      omega
    · by_cases h3 : c.toNat < 65536
      · rw [if_neg h1, if_neg h2, if_pos h3] at hm
        simp only [List.mem_cons, List.not_mem_nil, or_false] at hm
        omega
      · rw [if_neg h1, if_neg h2, if_neg h3] at hm
        simp only [List.mem_cons, List.not_mem_nil, or_false] at hm
        omega

theorem dot_not_mem_encodeList (cs : List Char) (h : '.' ∉ cs) :
    46 ∉ utf8EncodeList cs := by
  induction cs with
  | nil => simp [utf8EncodeList]
  | cons c cs ih =>
    simp only [List.mem_cons, not_or] at h
    obtain ⟨hc, hcs⟩ := h
    rw [utf8EncodeList]
    intro hm
    rcases List.mem_append.mp hm with hm1 | hm2
    · exact dot_not_mem_encodeChar c (fun he => hc he.symm) hm1
    · exact ih hcs hm2

theorem splitLastDot_of_not_mem (l : List Nat) (h : 46 ∉ l) : splitLastDot l = none := by
  induction l with
  | nil => rfl
  | cons b bs ih =>
    simp only [List.mem_cons, not_or] at h
    obtain ⟨hb, hbs⟩ := h
    rw [splitLastDot, ih hbs]
    simp only [Option.elim_none]
    rw [if_neg (fun hc => hb hc.symm)]

theorem splitLastDot_append (l1 l2 : List Nat) (h : 46 ∉ l2) :
    splitLastDot (l1 ++ 46 :: l2) = some (l1, l2) := by
  induction l1 with
  | nil =>
    rw [List.nil_append, splitLastDot, splitLastDot_of_not_mem l2 h]
    simp
  | cons b bs ih =>
    rw [List.cons_append, splitLastDot, ih]
    simp

theorem split_file_at_dot_append (l1 l2 : List Nat) (hd : 46 ∉ l2) (hne : l1 ≠ [])
    (hdd : l1 ++ 46 :: l2 ≠ [46, 46]) :
    split_file_at_dot (l1 ++ 46 :: l2) = (some l1, some l2) := by
  unfold split_file_at_dot
  rw [if_neg hdd, splitLastDot_append l1 l2 hd]
  simp [hne]

theorem split_file_at_dot_none_snd (f : List Nat) (a : Option (List Nat))
    (h : split_file_at_dot f = (none, a)) : a = some f := by
  unfold split_file_at_dot at h
  split at h
  · exact absurd h (by simp)
  · split at h
    · rw [Prod.mk.injEq] at h
      exact h.2.symm
    · split at h
      · exact absurd h (by simp)
      · exact absurd h (by simp)

theorem split_file_at_dot_some_none (f pre : List Nat)
    (h : split_file_at_dot f = (some pre, none)) : pre = f := by
  unfold split_file_at_dot at h
  split at h
  · rw [Prod.mk.injEq, Option.some.injEq] at h
    exact h.1.symm
  · split at h
    · exact absurd h (by simp)
    · split at h
      · rw [Prod.mk.injEq, Option.some.injEq] at h
        exact h.1.symm
      · exact absurd h (by simp)

theorem file_stem_of_extension_none (f : List Nat) (h : extension f = none) :
    file_stem f = some f := by
  unfold extension at h
  unfold file_stem
  rcases hs : split_file_at_dot f with ⟨b, a⟩
  rw [hs] at h
  match b, a with
  | some pre, a =>
    simp only at h
    subst h
    simp only
    rw [split_file_at_dot_some_none f pre hs]
  | none, a =>
    simp only
    exact split_file_at_dot_none_snd f a hs

theorem file_name_concat (l : List (List Nat)) (x : List Nat)
    (h1 : x ≠ [46]) (h2 : x ≠ [46, 46]) : file_name (l ++ [x]) = some x := by
  simp [file_name, List.filter_append, h1, h2, List.getLast?_concat]

theorem dropTrailingCurDir_concat (l : List (List Nat)) (x : List Nat) (h : x ≠ [46]) :
    dropTrailingCurDir (l ++ [x]) = l ++ [x] := by
  unfold dropTrailingCurDir
  rw [List.reverse_append]
  simp [List.dropWhile_cons, h]

/-- A directory entry as returned by `std::fs::read_dir`: its file name and
whether it is a directory. The file type is available to the program but —
as the theorems below show — never consulted. -/
structure DirEntryM where
  name : List Nat
  isDir : Bool
  deriving DecidableEq

/-- The filter closure `is_wasm_output` from the Build arm of `main`:
`entry.path().extension().and_then(|ext| Some(ext.to_str()? == "wasm")).unwrap_or(false)`.
`entry.path()` is the scanned directory joined with the entry's file name,
so its `file_name` and `extension` are those of the entry's own name
component. -/
def is_wasm_output (entry : DirEntryM) : Bool :=
  match (file_name [entry.name]).bind extension with
  | none => false
  | some extBytes =>
    match utf8Decode extBytes with
    | none => false
    | some cs => if String.mk cs = "wasm" then true else false

/-- Passes the source adds to the wasm-opt `OptimizationOptions`. -/
inductive WasmPass where
  | stripDwarf
  | asyncify
  deriving DecidableEq

/-- Wasm features the source enables. -/
inductive WasmFeature where
  | bulkMemory
  | simd
  deriving DecidableEq

/-- The slice of `wasm_opt::OptimizationOptions` the source manipulates:
optimization level, shrink level, whether debug info is kept, enabled
features, the added pass list and the pass arguments. -/
structure OptimizationOptions where
  optLevel : Nat
  shrinkLevel : Nat
  debugInfo : Bool
  features : List WasmFeature
  passes : List WasmPass
  passArgs : List (String × String)
  deriving DecidableEq

/-- `OptimizationOptions::new_opt_level_0()`: wasm-opt `-O0`. -/
def new_opt_level_0 : OptimizationOptions := ⟨0, 0, false, [], [], []⟩

/-- `OptimizationOptions::new_opt_level_4()`: wasm-opt `-O4`, the highest
optimization level the wasm-opt crate offers. -/
def new_opt_level_4 : OptimizationOptions := ⟨4, 0, false, [], [], []⟩

/-- `OptimizationOptions::debug_info`. -/
def debug_info (o : OptimizationOptions) (b : Bool) : OptimizationOptions :=
  ⟨o.optLevel, o.shrinkLevel, b, o.features, o.passes, o.passArgs⟩

/-- `OptimizationOptions::add_pass`. -/
def add_pass (o : OptimizationOptions) (p : WasmPass) : OptimizationOptions :=
  ⟨o.optLevel, o.shrinkLevel, o.debugInfo, o.features, o.passes ++ [p], o.passArgs⟩

/-- `OptimizationOptions::enable_feature`. -/
def enable_feature (o : OptimizationOptions) (f : WasmFeature) : OptimizationOptions :=
  ⟨o.optLevel, o.shrinkLevel, o.debugInfo, o.features ++ [f], o.passes, o.passArgs⟩

/-- `OptimizationOptions::set_pass_arg`. -/
def set_pass_arg (o : OptimizationOptions) (k v : String) : OptimizationOptions :=
  ⟨o.optLevel, o.shrinkLevel, o.debugInfo, o.features, o.passes, o.passArgs ++ [(k, v)]⟩

/-- Models `make_wasm_opt`: level 0 in debug mode, level 4 in release mode;
debug mode keeps debug info while release mode adds the `StripDwarf` pass;
both modes enable bulk-memory and SIMD and add the `Asyncify` pass
configured to treat the sandbox's `sched_yield` import as a blocking
call. -/
def make_wasm_opt (debug : Bool) : OptimizationOptions :=
  let o1 := if debug then new_opt_level_0 else new_opt_level_4
  let o2 := if debug then debug_info o1 true else add_pass o1 WasmPass.stripDwarf
  let o3 := enable_feature (enable_feature o2 WasmFeature.bulkMemory) WasmFeature.simd
  set_pass_arg (add_pass o3 WasmPass.asyncify) "asyncify-imports"
    "wasi_snapshot_preview1.sched_yield"

/-- Result of waiting on a spawned toolchain process: an IO error from
`wait` itself, or the process's exit status code. -/
inductive WaitOutcome where
  | ioError
  | exited (code : Nat)
  deriving DecidableEq

/-- Result of `Command::spawn` for one package build: failure to spawn, or a
child process with the given wait outcome. -/
inductive SpawnOutcome where
  | spawnError
  | spawned (w : WaitOutcome)
  deriving DecidableEq

/-- Errors surfaced by the Build arm of `main`; each corresponds to an
`anyhow` context in the source. -/
inductive BuildError where
  | spawnFailed (package : String)
  | waitFailed (package : String)
  | optimizeFailed (artifact : List Nat)
  deriving DecidableEq

/-- The package loop of the Build arm: for each package in order, spawn
`cargo rustc` (`build(package, debug)?`) and block on it
(`.wait().context(..)?`). A spawn failure or an IO error from `wait` aborts
the loop; the `ExitStatus` value returned by `wait` is discarded. Returns
the list of packages that were built. -/
def build_all (toolchain : String → SpawnOutcome) :
    List String → Except BuildError (List String)
  | [] => Except.ok []
  | p :: ps =>
    match toolchain p with
    | SpawnOutcome.spawnError => Except.error (BuildError.spawnFailed p)
    | SpawnOutcome.spawned WaitOutcome.ioError => Except.error (BuildError.waitFailed p)
    | SpawnOutcome.spawned (WaitOutcome.exited _) =>
      (build_all toolchain ps).map (fun rest => p :: rest)

/-- Per-invocation filesystem/optimizer environment for `optimize_wasm`:
what `fs::metadata(..).len()` yields for the input and output paths (`none`
is an IO error) and whether the `OptimizationOptions::run` call succeeds. -/
structure OptEnv where
  sizeOfInput : Option Nat
  runSucceeds : Bool
  sizeOfOutput : Option Nat
  deriving DecidableEq

/-- Outcome of `optimize_wasm`: an error returned through `?`, a panic
raised by `.expect(..)`, or normal completion (with the fleet name it logs
and the two byte sizes). -/
inductive OptOutcome where
  | sizeInputError
  | panicked (msg : String)
  | optimizerError
  | sizeOutputError
  | nameError (e : NameError)
  | done (fleet : String) (inputSize outputSize : Nat)
  deriving DecidableEq

/-- Models `optimize_wasm`: read the input size; extract the file name with
`.file_name().and_then(|name| name.to_str()).expect("Input path must be a wasm file!")`
— a panic, not an error; run wasm-opt with `make_wasm_opt debug` (the run
result is the oracle `env.runSucceeds`); read the output size; then extract
the fleet name for the log line. -/
def optimize_wasm (env : OptEnv) (input_path : List (List Nat)) (debug : Bool) :
    OptOutcome :=
  match env.sizeOfInput with
  | none => OptOutcome.sizeInputError
  | some inputSize =>
    match (file_name input_path).bind utf8Decode with
    | none => OptOutcome.panicked "Input path must be a wasm file!"
    | some _wasmFileName =>
      match make_wasm_opt debug, env.runSucceeds with
      | _, false => OptOutcome.optimizerError
      | _, true =>
        match env.sizeOfOutput with
        | none => OptOutcome.sizeOutputError
        | some outputSize =>
          match extract_fleet_name input_path with
          | Except.error e => OptOutcome.nameError e
          | Except.ok fleet => OptOutcome.done fleet inputSize outputSize

/-- Outcome of the optimize phase of a successful Build command. -/
inductive BuildOutcome where
  | nothingToOptimize
  | optimized (artifacts : List (List Nat))
  deriving DecidableEq

/-- The per-artifact loop of the Build arm, `optimize_wasm(entry?.path(), debug)?`:
runs the optimizer (abstracted to the success oracle `opt`) over the scanned
entries, aborting at the first failure. -/
def optimize_loop (opt : List Nat → Bool) :
    List DirEntryM → Except BuildError (List (List Nat))
  | [] => Except.ok []
  | e :: es =>
    if opt e.name then (optimize_loop opt es).map (fun rest => e.name :: rest)
    else Except.error (BuildError.optimizeFailed e.name)

/-- Models the Build arm of `main` after argument handling: run the package
loop, scan the toolchain output directory (given as `entries`), filter with
`is_wasm_output`, and optimize each kept artifact — unless the scan came
back empty, in which case it prints "No wasm output found" and the command
succeeds without touching the optimizer. -/
def build_command (toolchain : String → SpawnOutcome) (packages : List String)
    (entries : List DirEntryM) (opt : List Nat → Bool) :
    Except BuildError BuildOutcome :=
  match build_all toolchain packages with
  | Except.error e => Except.error e
  | Except.ok _ =>
    let wasm_output := entries.filter is_wasm_output
    if wasm_output.isEmpty then Except.ok BuildOutcome.nothingToOptimize
    else (optimize_loop opt wasm_output).map BuildOutcome.optimized

/-- The fleet-output directory `./target/protologic_fleets/` as components. -/
def fleet_output_base_path : List (List Nat) :=
  [[46], utf8Encode "target", utf8Encode "protologic_fleets"]

/-- Path of a fleet artifact, `entry.path()`: the fleet-output directory
joined with the directory entry's file name. -/
def fleet_entry_path (e : DirEntryM) : List (List Nat) :=
  fleet_output_base_path ++ [e.name]

/-- `<[T; 2]>::first_chunk` on the fleets vector: the first two elements
when the length is at least two, `None` otherwise. -/
def first_chunk2 {α : Type} : List α → Option (α × α)
  | a :: b :: _ => some (a, b)
  | _ => none

/-- Models `battle_output_path`: extract both fleet names and join
`format!("{now}_{fleet1_name}_{fleet2_name}")` onto the current
directory. -/
def battle_output_path (cwd : List (List Nat)) (now : Nat)
    (fleet1 fleet2 : DirEntryM) : Except NameError (List (List Nat)) :=
  match extract_fleet_name (fleet_entry_path fleet1) with
  | Except.error e => Except.error e
  | Except.ok fleet1_name =>
    match extract_fleet_name (fleet_entry_path fleet2) with
    | Except.error e => Except.error e
    | Except.ok fleet2_name =>
      Except.ok
        (cwd ++ [utf8Encode (Nat.repr now ++ "_" ++ fleet1_name ++ "_" ++ fleet2_name)])

/-- Errors of the Run arm: the `context("tried to get find fleets 1 and 2")`
failure when `first_chunk` returns `None` (recorded with the number of
entries found), or a name-extraction failure from `battle_output_path`. -/
inductive RunError where
  | wrongFleetCount (found : Nat)
  | nameError (e : NameError)
  deriving DecidableEq

/-- The external invocations a completed Run arm performs: the simulator
process (two fleet artifact paths, the stringified debug flag, the output
path) and, when `--player` is set, the viewer on the `json.deflate` sibling
of the output path. -/
structure BattleInvocation where
  simFleet1 : List (List Nat)
  simFleet2 : List (List Nat)
  simDebug : Bool
  simOutput : List (List Nat)
  playerArg : Option (List (List Nat))
  deriving DecidableEq

/-- Models the Run arm of `main`: list the built fleets (`entries`, in
directory order), take the first two with `first_chunk` (failing when there
are fewer than two), compute the battle output path, invoke the simulator,
and if `--player` is set open the player on
`battle_output.with_extension("json.deflate")`. -/
def run_battle (cwd : List (List Nat)) (entries : List DirEntryM)
    (debug player : Bool) (now : Nat) : Except RunError BattleInvocation :=
  match first_chunk2 entries with
  | none => Except.error (RunError.wrongFleetCount entries.length)
  | some (fleet1, fleet2) =>
    match battle_output_path cwd now fleet1 fleet2 with
    | Except.error e => Except.error (RunError.nameError e)
    | Except.ok battle_output =>
      Except.ok
        ⟨fleet_entry_path fleet1, fleet_entry_path fleet2, debug, battle_output,
          if player then some (with_extension battle_output (utf8Encode "json.deflate"))
          else none⟩

theorem with_extension_empty_of_stem (p : List (List Nat)) (stem : List Nat)
    (h : (file_name p).bind file_stem = some stem) :
    with_extension p [] = (dropTrailingCurDir p).dropLast ++ [stem] := by
  unfold with_extension
  rw [h]
  rfl

theorem with_extension_empty_of_none (p : List (List Nat))
    (h : (file_name p).bind file_stem = none) : with_extension p [] = p := by
  unfold with_extension
  rw [h]

theorem file_name_singleton (x : List Nat) (h1 : x ≠ [46]) (h2 : x ≠ [46, 46]) :
    file_name [x] = some x := by
  have h := file_name_concat [] x h1 h2
  simpa using h

theorem split_encode_append (stem ext : String) (h1 : stem ≠ "") (h2 : ext ≠ "")
    (hdot : '.' ∉ ext.data) :
    split_file_at_dot (utf8Encode (stem ++ "." ++ ext)) =
      (some (utf8Encode stem), some (utf8Encode ext)) := by
  have henc : utf8Encode (stem ++ "." ++ ext) = utf8Encode stem ++ 46 :: utf8Encode ext := by
    rw [utf8Encode_append, utf8Encode_append, List.append_assoc]
    rfl
  rw [henc]
  have hne : utf8Encode stem ≠ [] := (utf8Encode_ne_special stem).1 h1
  have hene : utf8Encode ext ≠ [] := (utf8Encode_ne_special ext).1 h2
  apply split_file_at_dot_append _ _ (dot_not_mem_encodeList _ hdot) hne
  intro he
  obtain ⟨b, bs, hbs⟩ := List.exists_cons_of_ne_nil hne
  rw [hbs, List.cons_append] at he
  injection he with h1 h2
  cases bs with
  | nil =>
    rw [List.nil_append] at h2
    injection h2 with h3 h4
    exact hene h4
  | cons b2 bs2 =>
    rw [List.cons_append] at h2
    injection h2 with h3 h4
    exact List.noConfusion (List.append_eq_nil.mp h4).2

theorem extract_fleet_name_of_stem (p : List (List Nat)) (stem : String)
    (h2 : stem ≠ ".") (h3 : stem ≠ "..")
    (h : (file_name p).bind file_stem = some (utf8Encode stem)) :
    extract_fleet_name p = Except.ok stem := by
  obtain ⟨-, hdot, hddot⟩ := utf8Encode_ne_special stem
  unfold extract_fleet_name
  rw [with_extension_empty_of_stem p _ h, file_name_concat _ _ (hdot h2) (hddot h3)]
  simp only [utf8Decode_encode]

/-- C1 (amended): `run_battle` fails with the fleet-count error exactly when
the fleet-output directory holds fewer than two entries; with two or more
entries it does not fail on the count — it proceeds with the first two
entries in discovery order, behaving identically to a directory holding only
those two, so a third and later entries are silently ignored rather than
rejected. -/
theorem run_battle_uses_first_two (cwd : List (List Nat)) (entries : List DirEntryM)
    (debug player : Bool) (now : Nat) :
    (entries.length < 2 →
      run_battle cwd entries debug player now =
        Except.error (RunError.wrongFleetCount entries.length)) ∧
    (∀ e1 e2 rest, entries = e1 :: e2 :: rest →
      run_battle cwd entries debug player now =
        run_battle cwd [e1, e2] debug player now) := by
  constructor
  · intro hlen
    match entries, hlen with
    | [], _ => rfl
    | [e], _ => rfl
    | e1 :: e2 :: rest, h => simp only [List.length_cons] at h; omega
  · intro e1 e2 rest he
    subst he
    rfl

/-- Witness for `run_battle_uses_first_two` at concrete inputs: an empty
directory fails with the count error, and a three-entry directory behaves
like the directory of its first two entries. -/
theorem run_battle_uses_first_two_witness :
    run_battle [] [] false false 0 = Except.error (RunError.wrongFleetCount 0) ∧
      run_battle [] [⟨[97], false⟩, ⟨[98], false⟩, ⟨[99], false⟩] false false 0 =
        run_battle [] [⟨[97], false⟩, ⟨[98], false⟩] false false 0 :=
  ⟨(run_battle_uses_first_two [] [] false false 0).1 (by decide),
    (run_battle_uses_first_two [] [⟨[97], false⟩, ⟨[98], false⟩, ⟨[99], false⟩]
        false false 0).2 ⟨[97], false⟩ ⟨[98], false⟩ [⟨[99], false⟩] rfl⟩

/-- C1 counterexample: with three entries (`alpha.wasm`, `beta.wasm`,
`gamma.wasm`) the Run command does not fail with a count-mismatch error —
it spawns the simulator on the first two fleets. -/
theorem run_battle_three_fleets_spawns_cex :
    run_battle [] [⟨utf8Encode "alpha.wasm", false⟩, ⟨utf8Encode "beta.wasm", false⟩,
        ⟨utf8Encode "gamma.wasm", false⟩] false false 1000 =
      Except.ok
        ⟨fleet_entry_path ⟨utf8Encode "alpha.wasm", false⟩,
          fleet_entry_path ⟨utf8Encode "beta.wasm", false⟩, false,
          [utf8Encode "1000_alpha_beta"], none⟩ := by decide

/-- C2: the Build loop ignores the toolchain's exit status. With package
`"a"` exiting with status 1 and package `"b"` with status 0, the loop still
builds `"b"` after `"a"`'s failure and reports overall success: a non-zero
toolchain exit aborts nothing, because `.wait()?` only propagates IO errors
of `wait` itself and the returned `ExitStatus` is discarded. -/
theorem build_all_ignores_exit_status :
    build_all
        (fun p => if p = "a" then SpawnOutcome.spawned (WaitOutcome.exited 1)
          else SpawnOutcome.spawned (WaitOutcome.exited 0)) ["a", "b"] =
      Except.ok ["a", "b"] := rfl

/-- C3 (amended): the debug optimization profile uses the lowest
optimization level (0) and retains debug metadata, but it does NOT skip the
suspend/resume (Asyncify) rewrite pass — that pass is added unconditionally;
what debug mode skips is only the debug-metadata-stripping pass. -/
theorem make_wasm_opt_debug_profile :
    (make_wasm_opt true).optLevel = 0 ∧ (make_wasm_opt true).debugInfo = true ∧
      WasmPass.asyncify ∈ (make_wasm_opt true).passes ∧
      WasmPass.stripDwarf ∉ (make_wasm_opt true).passes := by decide

/-- C3 counterexample: the debug profile contains the Asyncify
(suspend/resume rewrite) pass, contradicting the claim that debug mode skips
it. -/
theorem make_wasm_opt_debug_asyncify_cex :
    WasmPass.asyncify ∈ (make_wasm_opt true).passes := by decide

/-- C4: the release optimization profile selects level 4 — the highest level
offered, in particular at least the level of every other profile the program
builds — includes the cooperative-yield (Asyncify) rewrite pass, and
includes the StripDwarf pass that strips embedded debug metadata. -/
theorem make_wasm_opt_release_profile :
    (make_wasm_opt false).optLevel = 4 ∧
      (make_wasm_opt true).optLevel ≤ (make_wasm_opt false).optLevel ∧
      WasmPass.asyncify ∈ (make_wasm_opt false).passes ∧
      WasmPass.stripDwarf ∈ (make_wasm_opt false).passes := by decide

/-- C5 (amended): for every path whose file name has the form
`{stem}.{ext}`, `extract_fleet_name` returns exactly `stem`, and for a file
name with no extension it returns the name unchanged — the extension strip
is unconditional, not gated on the extension being `wasm` — provided the
stem itself is not `"."` or `".."`; for such degenerate stems the stripped
path no longer has a file name at that component and extraction fails
instead (see the counterexample). -/
theorem extract_fleet_name_strips_stem (p : List (List Nat)) (stem ext : String)
    (h1 : stem ≠ "") (h2 : stem ≠ ".") (h3 : stem ≠ "..") :
    (ext ≠ "" → '.' ∉ ext.data →
      file_name p = some (utf8Encode (stem ++ "." ++ ext)) →
      extract_fleet_name p = Except.ok stem) ∧
    (extension (utf8Encode stem) = none → file_name p = some (utf8Encode stem) →
      extract_fleet_name p = Except.ok stem) := by
  constructor
  · intro hexne hdot hf
    apply extract_fleet_name_of_stem p stem h2 h3
    rw [hf, Option.some_bind]
    unfold file_stem
    rw [split_encode_append stem ext h1 hexne hdot]
  · intro hextnone hf
    apply extract_fleet_name_of_stem p stem h2 h3
    rw [hf, Option.some_bind]
    exact file_stem_of_extension_none _ hextnone

/-- Witness for `extract_fleet_name_strips_stem`: `alpha.wasm` yields
`alpha`, and the extensionless `demo` is returned unchanged. -/
theorem extract_fleet_name_strips_stem_witness :
    extract_fleet_name [utf8Encode ("alpha" ++ "." ++ "wasm")] = Except.ok "alpha" ∧
      extract_fleet_name [utf8Encode "demo"] = Except.ok "demo" :=
  ⟨(extract_fleet_name_strips_stem [utf8Encode ("alpha" ++ "." ++ "wasm")] "alpha" "wasm"
        (by decide) (by decide) (by decide)).1 (by decide) (by decide) (by decide),
    (extract_fleet_name_strips_stem [utf8Encode "demo"] "demo" "x"
        (by decide) (by decide) (by decide)).2 (by decide) (by decide)⟩

/-- C5 counterexample: the file name `..wasm` has the form `{stem}.{ext}`
with `stem = "."` and `ext = "wasm"`, but `extract_fleet_name` does not
return `"."` — stripping the extension leaves the path component `"."`,
which is no longer a file name, so extraction fails with
`MissingFileName`. -/
theorem extract_fleet_name_dot_stem_cex :
    extract_fleet_name [utf8Encode ("." ++ "." ++ "wasm")] =
        Except.error NameError.missingFileName ∧
      extract_fleet_name [utf8Encode ("." ++ "." ++ "wasm")] ≠ Except.ok "." := by
  constructor
  · decide
  · decide

/-- C6: with a fleet-output directory holding exactly `alpha.wasm` and
`beta.wasm` in discovery order and unix time 1000, the Run arm invokes the
simulator with an output path whose final component is `1000_alpha_beta`,
and with the player option set it launches the viewer on the derived path
whose final component is `1000_alpha_beta.json.deflate`. -/
theorem run_battle_alpha_beta :
    run_battle [utf8Encode "home"]
        [⟨utf8Encode "alpha.wasm", false⟩, ⟨utf8Encode "beta.wasm", false⟩]
        false true 1000 =
      Except.ok
        ⟨fleet_entry_path ⟨utf8Encode "alpha.wasm", false⟩,
          fleet_entry_path ⟨utf8Encode "beta.wasm", false⟩, false,
          [utf8Encode "home", utf8Encode "1000_alpha_beta"],
          some [utf8Encode "home", utf8Encode "1000_alpha_beta.json.deflate"]⟩ := by
  decide

/-- C7 (amended): the Artifact Scanner's filter keeps an entry based on its
extension alone — the result is independent of the entry's file type, a name
of the form `{stem}.wasm` is kept, and a dot-free (extensionless) name is
dropped. Directories whose name ends in `.wasm` are therefore NOT excluded
(see the counterexample); only the wasm-extension check is performed. -/
theorem is_wasm_output_checks_extension_only :
    (∀ (name : List Nat) (d1 d2 : Bool),
      is_wasm_output ⟨name, d1⟩ = is_wasm_output ⟨name, d2⟩) ∧
    (∀ (stem : String) (d : Bool), stem ≠ "" →
      is_wasm_output ⟨utf8Encode (stem ++ "." ++ "wasm"), d⟩ = true) ∧
    (∀ (nm : String) (d : Bool), '.' ∉ nm.data →
      is_wasm_output ⟨utf8Encode nm, d⟩ = false) := by
  refine ⟨fun name d1 d2 => rfl, fun stem d hne => ?_, fun nm d hdot => ?_⟩
  · have hsplit := split_encode_append stem "wasm" hne (by decide) (by decide)
    have hA : utf8Encode (stem ++ "." ++ "wasm") ≠ [46] := by
      intro he
      rw [he, (by decide : split_file_at_dot [46] = (some [46], none))] at hsplit
      exact Option.noConfusion (congrArg Prod.snd hsplit)
    have hB : utf8Encode (stem ++ "." ++ "wasm") ≠ [46, 46] := by
      intro he
      rw [he, (by decide : split_file_at_dot [46, 46] = (some [46, 46], none))] at hsplit
      exact Option.noConfusion (congrArg Prod.snd hsplit)
    unfold is_wasm_output
    rw [file_name_singleton _ hA hB, Option.some_bind]
    unfold extension
    rw [hsplit]
    simp only [utf8Decode_encode]
    rfl
  · have hnd : 46 ∉ utf8Encode nm := dot_not_mem_encodeList nm.data hdot
    have hA : utf8Encode nm ≠ [46] := by
      intro he; apply hnd; rw [he]; simp
    have hB : utf8Encode nm ≠ [46, 46] := by
      intro he; apply hnd; rw [he]; simp
    have hsfd : split_file_at_dot (utf8Encode nm) = (none, some (utf8Encode nm)) := by
      unfold split_file_at_dot
      rw [if_neg hB, splitLastDot_of_not_mem _ hnd]
    unfold is_wasm_output
    rw [file_name_singleton _ hA hB, Option.some_bind]
    unfold extension
    rw [hsfd]

/-- Witness for `is_wasm_output_checks_extension_only`: the filter value of
`alpha.wasm` does not depend on the file type, `alpha.wasm` is kept, and the
extensionless `README` is dropped. -/
theorem is_wasm_output_checks_extension_only_witness :
    is_wasm_output ⟨utf8Encode ("alpha" ++ "." ++ "wasm"), false⟩ =
        is_wasm_output ⟨utf8Encode ("alpha" ++ "." ++ "wasm"), true⟩ ∧
      is_wasm_output ⟨utf8Encode ("alpha" ++ "." ++ "wasm"), false⟩ = true ∧
      is_wasm_output ⟨utf8Encode "README", false⟩ = false :=
  ⟨is_wasm_output_checks_extension_only.1 (utf8Encode ("alpha" ++ "." ++ "wasm")) false true,
    is_wasm_output_checks_extension_only.2.1 "alpha" false (by decide),
    is_wasm_output_checks_extension_only.2.2 "README" false (by decide)⟩

/-- C7 counterexample: a DIRECTORY entry named `subdir.wasm` passes the
filter and is kept in the scan result — the filter never checks that the
entry is a regular file. -/
theorem is_wasm_output_directory_cex :
    is_wasm_output ⟨utf8Encode "subdir.wasm", true⟩ = true ∧
      ([⟨utf8Encode "subdir.wasm", true⟩] : List DirEntryM).filter is_wasm_output =
        [⟨utf8Encode "subdir.wasm", true⟩] := by
  constructor
  · decide
  · decide

/-- C8: `extract_fleet_name` returns the error value `MissingFileName` on a
path with no file-name component, and the error value `NonUnicodeName` on a
path whose file stem is not representable as unicode text; neither case
panics. -/
theorem extract_fleet_name_error_cases (p : List (List Nat)) :
    (file_name p = none →
      extract_fleet_name p = Except.error NameError.missingFileName) ∧
    (∀ name stem, file_name p = some name → file_stem name = some stem →
      utf8Decode stem = none →
      extract_fleet_name p = Except.error NameError.nonUnicodeName) := by
  constructor
  · intro h
    unfold extract_fleet_name
    rw [with_extension_empty_of_none p (by rw [h]; rfl), h]
  · intro name stem hn hs hd
    have hs1 : stem ≠ [46] := by
      intro he; rw [he] at hd; exact absurd hd (by decide)
    have hs2 : stem ≠ [46, 46] := by
      intro he; rw [he] at hd; exact absurd hd (by decide)
    unfold extract_fleet_name
    rw [with_extension_empty_of_stem p stem (by rw [hn, Option.some_bind]; exact hs),
      file_name_concat _ _ hs1 hs2]
    simp only [hd]

/-- Witness for `extract_fleet_name_error_cases`: the path `..` has no
file-name component, and a path whose single component is the invalid byte
sequence `[255, 46, 119]` (stem `[255]`) is not unicode-decodable. -/
theorem extract_fleet_name_error_cases_witness :
    extract_fleet_name [[46, 46]] = Except.error NameError.missingFileName ∧
      extract_fleet_name [[255, 46, 119]] = Except.error NameError.nonUnicodeName :=
  ⟨(extract_fleet_name_error_cases [[46, 46]]).1 (by decide),
    (extract_fleet_name_error_cases [[255, 46, 119]]).2 [255, 46, 119] [255]
      (by decide) (by decide) (by decide)⟩

/-- C9: when the package loop succeeds and no entry of the toolchain output
directory passes the wasm filter, the Build command terminates successfully
with the explicit nothing-to-optimize outcome; the conclusion holds for
every optimizer oracle `opt`, so the optimization pipeline is not invoked on
any artifact. -/
theorem build_command_nothing_to_optimize (toolchain : String → SpawnOutcome)
    (packages : List String) (entries : List DirEntryM) (opt : List Nat → Bool)
    (built : List String) (hb : build_all toolchain packages = Except.ok built)
    (h : ∀ e ∈ entries, is_wasm_output e = false) :
    build_command toolchain packages entries opt =
      Except.ok BuildOutcome.nothingToOptimize := by
  unfold build_command
  rw [hb]
  have hfil : entries.filter is_wasm_output = [] := by
    rw [List.filter_eq_nil_iff]
    intro a ha
    simp [h a ha]
  simp [hfil]

/-- Witness for `build_command_nothing_to_optimize`: one package builds
(exit status 0) and the output directory holds only the `deps` directory,
which fails the wasm filter. -/
theorem build_command_nothing_to_optimize_witness :
    build_command (fun _ => SpawnOutcome.spawned (WaitOutcome.exited 0)) ["demo_fleet"]
        [⟨utf8Encode "deps", true⟩] (fun _ => true) =
      Except.ok BuildOutcome.nothingToOptimize :=
  build_command_nothing_to_optimize (fun _ => SpawnOutcome.spawned (WaitOutcome.exited 0))
    ["demo_fleet"] [⟨utf8Encode "deps", true⟩] (fun _ => true) ["demo_fleet"] rfl (by decide)

/-- C10: when the input path's file name is absent or not representable as
unicode, `optimize_wasm` panics at the
`.expect("Input path must be a wasm file!")` assertion instead of returning
an error value — even when the file's size was just read successfully. -/
theorem optimize_wasm_panics_on_bad_name (env : OptEnv) (p : List (List Nat))
    (debug : Bool) (k : Nat) (hsize : env.sizeOfInput = some k)
    (hname : (file_name p).bind utf8Decode = none) :
    optimize_wasm env p debug = OptOutcome.panicked "Input path must be a wasm file!" := by
  unfold optimize_wasm
  rw [hsize, hname]

/-- Witness for `optimize_wasm_panics_on_bad_name`: the input size reads as
5 bytes but the single path component `[255]` is not unicode-decodable. -/
theorem optimize_wasm_panics_on_bad_name_witness :
    optimize_wasm ⟨some 5, true, some 3⟩ [[255]] false =
      OptOutcome.panicked "Input path must be a wasm file!" :=
  optimize_wasm_panics_on_bad_name ⟨some 5, true, some 3⟩ [[255]] false 5 rfl (by decide)
